import Mathlib

/-!
Verification of the skill-customizer command-line tools (fork_skill.py,
track_feedback.py, finalize_skill.py) against their specification.

The scripts are embedded shallowly: file contents are `List Char`, paths are
lists of path components, and the filesystem is an explicit structure threaded
through each operation.  The few regular expressions the scripts use are
modelled by dedicated string-scanning functions that reproduce the Python
`re` semantics (leftmost match, greedy `\s*` with backtracking, lazy `(.*?)`,
`$`-before-trailing-newline) for the concrete patterns appearing in the code.
-/

namespace Skills

/-- Python `\s` for the ASCII range: space (32), tab (9), newline (10),
carriage return (13), vertical tab (11), form feed (12). -/
def pyIsSpace (c : Char) : Bool :=
  c.toNat == 32 || c.toNat == 9 || c.toNat == 10 || c.toNat == 13 ||
  c.toNat == 11 || c.toNat == 12

/-- Python `str.strip()`: drop whitespace from both ends. -/
def pyStrip (s : List Char) : List Char :=
  ((s.dropWhile pyIsSpace).reverse.dropWhile pyIsSpace).reverse

/-- ASCII lowering, as Python `str.lower()` acts on ASCII letters. -/
def lowerAscii (c : Char) : Char :=
  if 'A' ≤ c && c ≤ 'Z' then Char.ofNat (c.toNat + 32) else c

/-- Python `pat in s` (substring containment). -/
def containsStr (s pat : List Char) : Bool :=
  if pat.isPrefixOf s then true
  else
    match s with
    | [] => false
    | _ :: t => containsStr t pat

/-- Non-overlapping occurrence count, scanning left to right
(`str.count` for a non-empty pattern).  The extra `Nat` argument only bounds
the recursion; it starts at the scanned list's length and never runs out,
since each step drops at least one character. -/
def pyCountPos (pat : List Char) : Nat → List Char → Nat
  | 0, _ => 0
  | _, [] => 0
  | fuel + 1, c :: t =>
    if pat.isPrefixOf (c :: t) then
      1 + pyCountPos pat fuel (List.drop (pat.length - 1) t)
    else
      pyCountPos pat fuel t

/-- Python `s.count(pat)` (with the `len+1` convention for an empty pattern). -/
def pyCount (s pat : List Char) : Nat :=
  if pat.isEmpty then s.length + 1 else pyCountPos pat s.length s

/-- Replace every non-overlapping occurrence of `pat`, left to right
(`str.replace` for a non-empty pattern); the `Nat` argument bounds the
recursion exactly as in `pyCountPos`. -/
def pyReplacePos (pat repl : List Char) : Nat → List Char → List Char
  | 0, s => s
  | _, [] => []
  | fuel + 1, c :: t =>
    if pat.isPrefixOf (c :: t) then
      repl ++ pyReplacePos pat repl fuel (List.drop (pat.length - 1) t)
    else
      c :: pyReplacePos pat repl fuel t

/-- Python `s.replace(pat, repl)`. -/
def pyReplace (s pat repl : List Char) : List Char :=
  if pat.isEmpty then repl ++ (s.map (fun c => [c] ++ repl)).flatten
  else pyReplacePos pat repl s.length s

/-- Replace only the first occurrence of `pat` by `repl`
(`re.sub` with `count=1` on a literal pattern, the group reference
already expanded into `repl`). -/
def subFirst (pat repl : List Char) : List Char → List Char
  | [] => if pat.isEmpty then repl else []
  | c :: t =>
    if pat.isPrefixOf (c :: t) then repl ++ List.drop (pat.length - 1) t
    else c :: subFirst pat repl t

/-- Decimal digits of a natural number, zero padded on the left to `w`. -/
def padZero (w : Nat) (s : List Char) : List Char :=
  List.replicate (w - s.length) '0' ++ s

/-- A character of the `[a-z0-9-]` class: `a`–`z` (97–122), `0`–`9`
(48–57), or `-` (45). -/
def isClassChar (c : Char) : Bool :=
  (97 ≤ c.toNat && c.toNat ≤ 122) || (48 ≤ c.toNat && c.toNat ≤ 57) || c.toNat == 45

/-- Python `re.match(r'^[a-z0-9-]+$', s)` is a match: one or more class
characters spanning the string, where `$` also matches just before a single
trailing newline. -/
def pyNamePat (s : List Char) : Bool :=
  let t := if s.getLast? == some '\n' then s.dropLast else s
  !t.isEmpty && t.all isClassChar

/-- The extra hyphen-placement check both scripts perform after the
character-class pattern: leading `-`, trailing `-`, or `--` anywhere. -/
def badHyphens (s : List Char) : Bool :=
  s.head? == some '-' || s.getLast? == some '-' || containsStr s ('-' :: '-' :: [])

/-!  ## Regex models

`finalize_skill.validate_skill` and `fork_skill.update_skill_metadata` use
`re.match(r'^---\n(.*?)\n---', content, re.DOTALL)` to extract the
frontmatter.  With the lazy group, the frontmatter is the text strictly
between the opening `---\n` and the *first* following `\n---`. -/

/-- Scan for the first position where `marker` starts; return the text
before it (the lazy `(.*?)` group). -/
def findBeforeMarker (marker : List Char) : List Char → Option (List Char)
  | [] => none
  | c :: t =>
    if marker.isPrefixOf (c :: t) then some []
    else (findBeforeMarker marker t).map (c :: ·)

/-- `re.match(r'^---\n(.*?)\n---', content, re.DOTALL)`, returning group 1. -/
def extractFrontmatter (content : List Char) : Option (List Char) :=
  if ('-' :: '-' :: '-' :: '\n' :: []).isPrefixOf content then
    findBeforeMarker ('\n' :: '-' :: '-' :: '-' :: []) (content.drop 4)
  else none

/-- Match `\s*(.+)` at the start of the input with Python backtracking:
`\s*` is greedy (and crosses newlines), `(.+)` needs at least one
non-newline character and is greedy up to the next newline.
Returns `(whitespace, group, rest)`. -/
def wsThenLine : List Char → Option (List Char × List Char × List Char)
  | [] => none
  | c :: t =>
    if pyIsSpace c then
      match wsThenLine t with
      | some (w, v, r) => some (c :: w, v, r)
      | none =>
        if c == '\n' then none
        else some ([], (c :: t).takeWhile (· != '\n'), (c :: t).dropWhile (· != '\n'))
    else
      some ([], (c :: t).takeWhile (· != '\n'), (c :: t).dropWhile (· != '\n'))

/-- `re.search(r'name:\s*(.+)', s)`, returning group 1
(used by the Validator). -/
def searchNameValue : List Char → Option (List Char)
  | [] => none
  | c :: t =>
    if ('n' :: 'a' :: 'm' :: 'e' :: ':' :: []).isPrefixOf (c :: t) then
      match wsThenLine ((c :: t).drop 5) with
      | some (_, v, _) => some v
      | none => searchNameValue t
    else searchNameValue t

/-- Leftmost match of `(name:\s*)([^\n]+)` (used by the Forker's name
substitution): returns `(before, group1, group2, rest)` with
`before ++ group1 ++ group2 ++ rest` the whole string,
`group1 = "name:" ++ whitespace`, `group2` the matched value. -/
def searchNameSub : List Char → Option (List Char × List Char × List Char × List Char)
  | [] => none
  | c :: t =>
    if ('n' :: 'a' :: 'm' :: 'e' :: ':' :: []).isPrefixOf (c :: t) then
      match wsThenLine ((c :: t).drop 5) with
      | some (w, v, r) => some ([], ('n' :: 'a' :: 'm' :: 'e' :: ':' :: []) ++ w, v, r)
      | none => (searchNameSub t).map (fun q => (c :: q.1, q.2.1, q.2.2.1, q.2.2.2))
    else (searchNameSub t).map (fun q => (c :: q.1, q.2.1, q.2.2.1, q.2.2.2))

/-! ## Filesystem model -/

/-- A resolved path: its components from the filesystem root. -/
abbrev FPath := List String

/-- Contents of a regular file.  A zip archive is kept structurally as its
list of entries (internal path and stored bytes); its on-disk byte
serialisation is irrelevant to the scripts. -/
inductive FileData where
  | text : List Char → FileData
  | zip : List (FPath × List Char) → FileData
deriving DecidableEq, Repr

/-- The bytes obtained by reading a file as text. -/
def FileData.rawBytes : FileData → List Char
  | .text s => s
  | .zip es => (es.map (fun e => (e.1.map String.data).flatten ++ e.2)).flatten

/-- The filesystem: the set of directories and the regular files with their
contents.  Lookup takes the first entry with a matching path. -/
structure FS where
  dirs : List FPath
  files : List (FPath × FileData)
deriving DecidableEq, Repr

def FS.isDir (fs : FS) (p : FPath) : Bool := fs.dirs.contains p

def FS.readFile (fs : FS) (p : FPath) : Option FileData :=
  (fs.files.find? (fun e => e.1 == p)).map (·.2)

def FS.isFile (fs : FS) (p : FPath) : Bool := (fs.readFile p).isSome

/-- `Path.exists()`: the path is a directory or a regular file. -/
def FS.pathExists (fs : FS) (p : FPath) : Bool := fs.isDir p || fs.isFile p

/-- Create or overwrite a regular file. -/
def FS.writeFile (fs : FS) (p : FPath) (d : FileData) : FS :=
  if fs.isFile p then
    { fs with files := fs.files.map (fun e => if e.1 == p then (p, d) else e) }
  else
    { fs with files := fs.files ++ [(p, d)] }

/-- `open(p, 'a')` followed by a write: append to the file, creating it when
absent. -/
def FS.appendText (fs : FS) (p : FPath) (s : List Char) : FS :=
  match fs.readFile p with
  | some d => fs.writeFile p (.text (d.rawBytes ++ s))
  | none => fs.writeFile p (.text s)

/-- `Path.mkdir(parents=True, exist_ok=True)`. -/
def FS.mkdirAll (fs : FS) (p : FPath) : FS :=
  if fs.isDir p then fs else { fs with dirs := fs.dirs ++ [p] }

/-- `shutil.copytree(src, dst)`: every directory and file strictly below
`src` reappears below `dst`, and `dst` itself is created. -/
def FS.copyTree (fs : FS) (src dst : FPath) : FS :=
  { dirs := (fs.dirs ++ [dst]) ++
      ((fs.dirs.filter
          (fun q => src.isPrefixOf q && decide (src.length < q.length))).map
        (fun q => dst ++ q.drop src.length)),
    files := fs.files ++
      ((fs.files.filter
          (fun e => src.isPrefixOf e.1 && decide (src.length < e.1.length))).map
        (fun e => (dst ++ e.1.drop src.length, e.2))) }

/-- `Path.name`: the final path component. -/
def pathName (p : FPath) : String := p.getLastD ""

/-! ## finalize_skill.py -/

/-- Outcome messages of `validate_skill`, one per `return` site (the model
keeps the dynamic name in the two name-shaped messages). -/
inductive VMsg where
  | dirNotFound
  | notADirectory
  | skillMdNotFound
  | missingFrontmatter
  | invalidFrontmatter
  | missingName
  | missingDescription
  | nameNotHyphenCase (name : List Char)
  | nameBadHyphens (name : List Char)
  | valid
deriving DecidableEq, Repr

/-- The frontmatter part of `validate_skill` (from `content = skill_md.read_text()`
on): frontmatter delimiters, required keys by substring presence, then the
name extraction and the two name checks. -/
def validateContent (content : List Char) : Bool × VMsg :=
  if !(('-' :: '-' :: '-' :: []).isPrefixOf content) then
    (false, .missingFrontmatter)
  else
    match extractFrontmatter content with
    | none => (false, .invalidFrontmatter)
    | some fm =>
      if !containsStr fm ('n' :: 'a' :: 'm' :: 'e' :: ':' :: []) then
        (false, .missingName)
      else if !containsStr fm "description:".toList then
        (false, .missingDescription)
      else
        match searchNameValue fm with
        | some v =>
          let name := pyStrip v
          if !pyNamePat name then (false, .nameNotHyphenCase name)
          else if badHyphens name then (false, .nameBadHyphens name)
          else (true, .valid)
        | none => (true, .valid)

/-- `finalize_skill.validate_skill`. -/
def validateSkill (fs : FS) (skillPath : FPath) : Bool × VMsg :=
  if !fs.pathExists skillPath then (false, .dirNotFound)
  else if !fs.isDir skillPath then (false, .notADirectory)
  else
    match fs.readFile (skillPath ++ ["SKILL.md"]) with
    | none => (false, .skillMdNotFound)
    | some d => validateContent d.rawBytes

/-- A wall-clock instant as used by `datetime.now().strftime(...)`. -/
structure Stamp where
  year : Nat
  month : Nat
  day : Nat
  hour : Nat
  minute : Nat
  second : Nat
deriving DecidableEq, Repr

/-- `strftime("%Y%m%d-%H%M%S")`. -/
def fmtStamp (t : Stamp) : List Char :=
  padZero 4 (Nat.toDigits 10 t.year) ++ padZero 2 (Nat.toDigits 10 t.month) ++
  padZero 2 (Nat.toDigits 10 t.day) ++ ('-' :: []) ++
  padZero 2 (Nat.toDigits 10 t.hour) ++ padZero 2 (Nat.toDigits 10 t.minute) ++
  padZero 2 (Nat.toDigits 10 t.second)

/-- `strftime("%Y-%m-%d")`. -/
def fmtDate (t : Stamp) : List Char :=
  padZero 4 (Nat.toDigits 10 t.year) ++ ('-' :: []) ++
  padZero 2 (Nat.toDigits 10 t.month) ++ ('-' :: []) ++
  padZero 2 (Nat.toDigits 10 t.day)

/-- `strftime("%Y-%m-%d %H:%M:%S")`. -/
def fmtDateTime (t : Stamp) : List Char :=
  fmtDate t ++ (' ' :: []) ++
  padZero 2 (Nat.toDigits 10 t.hour) ++ (':' :: []) ++
  padZero 2 (Nat.toDigits 10 t.minute) ++ (':' :: []) ++
  padZero 2 (Nat.toDigits 10 t.second)

/-- The archive entries of `package_skill_with_timestamp`'s walk: every
regular file strictly below the skill directory, stored under the path
relative to the skill directory's parent (so rooted at the skill's name). -/
def zipEntries (fs : FS) (skillPath : FPath) : List (FPath × List Char) :=
  (fs.files.filter
      (fun e => skillPath.isPrefixOf e.1 && decide (skillPath.length < e.1.length))).map
    (fun e => (pathName skillPath :: e.1.drop skillPath.length, e.2.rawBytes))

/-- `package_skill_with_timestamp`: resolve the output directory (creating an
explicit one), and write `<skill-name>-<timestamp>.zip` there containing the
walked files.  Returns the archive path with the updated filesystem. -/
def packageSkillWithTimestamp (fs : FS) (skillPath : FPath) (ts : Stamp)
    (outputDir : Option FPath) (cwd : FPath) : FPath × FS :=
  let skillName := pathName skillPath
  let outPath := match outputDir with | some d => d | none => cwd
  let fs1 := match outputDir with | some d => fs.mkdirAll d | none => fs
  let zipFile := outPath ++ [skillName ++ "-" ++ String.mk (fmtStamp ts) ++ ".zip"]
  (zipFile, fs1.writeFile zipFile (.zip (zipEntries fs1 skillPath)))

/-- `confirm_finalization`'s acceptance test on the operator's reply:
`response.strip().lower() in ['yes', 'y']`. -/
def isAffirmative (r : List Char) : Bool :=
  let s := (pyStrip r).map lowerAscii
  s == "yes".toList || s == "y".toList

/-- `finalize_skill`: directory checks, confirmation, validation, packaging.
The operator's reply and the packaging instant are inputs. -/
def finalizeSkill (fs : FS) (skillPath : FPath) (response : List Char)
    (ts : Stamp) (outputDir : Option FPath) (cwd : FPath) : Bool × FS :=
  if !fs.pathExists skillPath then (false, fs)
  else if !fs.isDir skillPath then (false, fs)
  else if !isAffirmative response then (false, fs)
  else if !(validateSkill fs skillPath).1 then (false, fs)
  else
    let r := packageSkillWithTimestamp fs skillPath ts outputDir cwd
    (true, r.2)

/-- `finalize_skill.main` after argument parsing: exit code 0 on success,
1 on any abort. -/
def finalizeMain (fs : FS) (skillPath : FPath) (response : List Char)
    (ts : Stamp) (outputDir : Option FPath) (cwd : FPath) : Nat × FS :=
  let r := finalizeSkill fs skillPath response ts outputDir cwd
  (if r.1 then 0 else 1, r.2)

/-! ## fork_skill.py -/

/-- Parse of the `re.sub` replacement template `f'\\1{new_name}'` against the
two-group pattern `(name:\s*)([^\n]+)`, following CPython's template parser:
`\1` followed by a non-digit is group 1; `\1` followed by one digit `d`
is the group reference `1d` (> 2, hence an invalid-group-reference error)
unless the next two characters are both octal digits, in which case the
three digits `1de` form an octal character escape. -/
inductive Repl where
  /-- The replacement is group 1 followed by the literal suffix. -/
  | group1Then (suffix : List Char)
  /-- The replacement is a literal character (octal escape) and suffix;
  group 1 is not referenced at all. -/
  | octalThen (c : Char) (suffix : List Char)
deriving DecidableEq, Repr

def isOctDigit (c : Char) : Bool := '0' ≤ c && c ≤ '7'

def parseNameTemplate (newName : List Char) : Except Unit Repl :=
  match newName with
  | [] => .ok (.group1Then [])
  | d :: rest =>
    if d.isDigit then
      match rest with
      | e :: rest2 =>
        if isOctDigit d && isOctDigit e then
          .ok (.octalThen
            (Char.ofNat (64 + 8 * (d.toNat - 48) + (e.toNat - 48))) rest2)
        else .error ()
      | [] => .error ()
    else .ok (.group1Then (d :: rest))

/-- `re.sub(r'(name:\s*)([^\n]+)', f'\\1{new_name}', content, count=1)`:
template errors surface as exceptions; otherwise the leftmost match (if any)
is replaced. -/
def nameSubApplied (content newName : List Char) : Except Unit (List Char) :=
  match parseNameTemplate newName with
  | .error e => .error e
  | .ok repl =>
    .ok (match searchNameSub content with
      | none => content
      | some (b, g1, _, r) =>
        b ++ (match repl with
          | .group1Then suf => g1 ++ suf
          | .octalThen c suf => c :: suf) ++ r)

/-- `fork_skill.update_skill_metadata` on the file's text: substitute the
first `name:` value, then ensure the frontmatter's `metadata:` block carries
`customized-from`/`customization-date`. -/
def updateSkillMetadata (content : List Char) (newName srcName today : List Char) :
    Except Unit (List Char) :=
  match nameSubApplied content newName with
  | .error e => .error e
  | .ok c1 =>
    .ok (match extractFrontmatter c1 with
      | none => c1
      | some fm =>
        if !containsStr fm "metadata:".toList then
          let newFm := fm ++ "\nmetadata:\n  customized-from: ".toList ++ srcName ++
            "\n  customization-date: ".toList ++ today
          pyReplace c1
            ("---\n".toList ++ fm ++ "\n---".toList)
            ("---\n".toList ++ newFm ++ "\n---".toList)
        else if !containsStr fm "customized-from:".toList then
          subFirst "metadata:".toList
            ("metadata:\n  customized-from: ".toList ++ srcName ++
              "\n  customization-date: ".toList ++ today) c1
        else c1)

/-- The fixed `CUSTOMIZATION_LOG.md` template of `create_customization_log`
(`{new_name}`, `{source_skill_name}` and the fork timestamp substituted in). -/
def customizationLogText (srcName newName forkedOn : List Char) : List Char :=
  "# Customization Log: ".toList ++ newName ++
  "\n\n## Base Skill\n- **Source**: ".toList ++ srcName ++
  "\n- **Forked on**: ".toList ++ forkedOn ++
  "\n\n## Customization History\n\n### Version 1.0 - Initial Fork\n- Created customized version from `".toList ++
  srcName ++
  "`\n- Ready for iterative improvements based on user feedback\n\n---\n\n## How to Track Changes\n\nDocument each customization iteration below with:\n1. Date and version number\n2. What was changed (SKILL.md, scripts, references, assets)\n3. Why it was changed (user feedback, preference, workflow improvement)\n4. How to test the change\n\n### Example Entry:\n\n### Version 1.1 - [Date]\n**Changes:**\n- Modified SKILL.md: Updated default output format from JSON to Markdown\n- Added script: custom_formatter.py for company-specific formatting\n\n**Reason:**\n- User prefers Markdown output for easier sharing with team\n- Company style guide requires specific heading formats\n\n**Testing:**\n- Run the skill on sample document\n- Verify output matches company style guide\n\n---\n\n## Modification Notes\n\nAdd your customization notes here as you iterate...\n".toList

/-- Error exits of `fork_skill`, one per `return None` site. -/
inductive ForkErr where
  | sourceNotFound
  | sourceNotDir
  | skillMdMissing
  | targetExists
  | updateError
deriving DecidableEq, Repr

/-- `fork_skill.fork_skill`: source checks, collision check, recursive copy,
metadata rewrite, customization log.  The log write never fails in the model
(its failure is downgraded to a warning by the script anyway). -/
def forkSkill (fs : FS) (sourcePath : FPath) (newName : String)
    (outputPath : FPath) (now : Stamp) : Except ForkErr FPath × FS :=
  if !fs.pathExists sourcePath then (.error .sourceNotFound, fs)
  else if !fs.isDir sourcePath then (.error .sourceNotDir, fs)
  else if !fs.pathExists (sourcePath ++ ["SKILL.md"]) then (.error .skillMdMissing, fs)
  else
    let sourceSkillName := pathName sourcePath
    let targetDir := outputPath ++ [newName]
    if fs.pathExists targetDir then (.error .targetExists, fs)
    else
      let fs1 := fs.copyTree sourcePath targetDir
      let tgtMd := targetDir ++ ["SKILL.md"]
      match fs1.readFile tgtMd with
      | none => (.error .updateError, fs1)
      | some d =>
        match updateSkillMetadata d.rawBytes newName.data sourceSkillName.data (fmtDate now) with
        | .error _ => (.error .updateError, fs1)
        | .ok c1 =>
          let fs2 := fs1.writeFile tgtMd (.text c1)
          let fs3 := fs2.writeFile (targetDir ++ ["CUSTOMIZATION_LOG.md"])
            (.text (customizationLogText sourceSkillName.data newName.data (fmtDateTime now)))
          (.ok targetDir, fs3)

/-- `fork_skill.main` after argument parsing: the new-name format checks run
before `fork_skill` is called; exit code 0 on success, 1 otherwise. -/
def forkMain (fs : FS) (sourcePath : FPath) (newName : String)
    (outputPath : FPath) (now : Stamp) : Nat × FS :=
  if !pyNamePat newName.data then (1, fs)
  else if badHyphens newName.data then (1, fs)
  else
    let r := forkSkill fs sourcePath newName outputPath now
    (match r.1 with | .ok _ => 0 | .error _ => 1, r.2)

/-! ## track_feedback.py -/

/-- The fixed header template `FEEDBACK_TEMPLATE`. -/
def feedbackTemplate : List Char :=
  "# Skill Feedback Log\n\nThis file tracks user feedback and customization needs for iterative skill improvement.\n\n---\n".toList

/-- The entry-header pattern counted by `save_feedback`. -/
def entryHeaderPat : List Char := "## Feedback Entry #".toList

/-- The six fields collected by `collect_feedback_interactive` (already
defaulted and capitalised by the collection step). -/
structure Feedback where
  taskDescription : List Char
  whatWorked : List Char
  whatDidntWork : List Char
  preferences : List Char
  improvements : List Char
  priority : List Char
deriving DecidableEq, Repr

/-- `FEEDBACK_ENTRY_TEMPLATE.format(...)`. -/
def renderEntry (entryNum : Nat) (date : List Char) (fb : Feedback) : List Char :=
  "\n## Feedback Entry #".toList ++ Nat.toDigits 10 entryNum ++ " - ".toList ++ date ++
  "\n\n### Task Context\n**What were you trying to accomplish?**\n".toList ++
  fb.taskDescription ++
  "\n\n### What Worked Well\n".toList ++ fb.whatWorked ++
  ("\n\n### What Didn".toList ++ (Char.ofNat 39 :: []) ++ "t Match Expectations\n".toList) ++
  fb.whatDidntWork ++
  "\n\n### Specific Preferences/Requirements\n".toList ++ fb.preferences ++
  "\n\n### Suggested Improvements\n".toList ++ fb.improvements ++
  "\n\n### Priority\n".toList ++ fb.priority ++
  "\n\n---\n".toList

/-- `track_feedback.save_feedback`: create the log from the template when
absent (entry 1), otherwise number the entry from the count of existing
entry headers; then append the rendered entry.  `none` models the read of an
existing path that is not a regular file raising (caught in `main`). -/
def saveFeedback (fs : FS) (skillDir : FPath) (fb : Feedback) (date : List Char) :
    Option (FPath × FS) :=
  let fbPath := skillDir ++ ["FEEDBACK.md"]
  if fs.pathExists fbPath then
    match fs.readFile fbPath with
    | none => none
    | some d =>
      some (fbPath, fs.appendText fbPath
        (renderEntry (pyCount d.rawBytes entryHeaderPat + 1) date fb))
  else
    some (fbPath,
      (fs.writeFile fbPath (.text feedbackTemplate)).appendText fbPath
        (renderEntry 1 date fb))

/-- `track_feedback.main` after argument parsing: `arg = none` models a
missing positional argument.  The post-save analysis is read-only and does
not affect the exit code.  Exit code 0 unless a precondition fails or the
save raises. -/
def trackFeedbackMain (fs : FS) (arg : Option FPath) (fb : Feedback)
    (date : List Char) : Nat × FS :=
  match arg with
  | none => (1, fs)
  | some skillPath =>
    if !fs.pathExists skillPath then (1, fs)
    else if !fs.isDir skillPath then (1, fs)
    else if !fs.pathExists (skillPath ++ ["SKILL.md"]) then (1, fs)
    else
      match saveFeedback fs skillPath fb date with
      | none => (1, fs)
      | some r => (0, r.2)

deriving instance DecidableEq for Except

/-! ## Helper lemmas -/

theorem find?_append_none {α : Type} (f : α → Bool) (l1 l2 : List α)
    (h : l1.find? f = none) : (l1 ++ l2).find? f = l2.find? f := by
  induction l1 with
  | nil => simp
  | cons a t ih =>
    rw [List.find?] at h
    rw [List.cons_append, List.find?]
    cases hf : f a with
    | false => simp only [hf] at h ⊢; exact ih h
    | true => simp [hf] at h

theorem find?_append_some {α : Type} (f : α → Bool) (l1 l2 : List α) (x : α)
    (h : l1.find? f = some x) : (l1 ++ l2).find? f = some x := by
  induction l1 with
  | nil => simp at h
  | cons a t ih =>
    rw [List.find?] at h
    rw [List.cons_append, List.find?]
    cases hf : f a with
    | false => simp only [hf] at h ⊢; exact ih h
    | true => simpa [hf] using h

theorem find?_map_overwrite (p : FPath) (d : FileData) (l : List (FPath × FileData))
    (h : (l.find? (fun e => e.1 == p)).isSome = true) :
    (l.map (fun e => if e.1 == p then (p, d) else e)).find? (fun e => e.1 == p) =
      some (p, d) := by
  induction l with
  | nil => simp [List.find?] at h
  | cons a t ih =>
    rw [List.map_cons]
    cases ha : a.1 == p with
    | true => simp [ha, List.find?]
    | false =>
      simp only [ha, Bool.false_eq_true, if_false]
      rw [List.find?, ha]
      rw [List.find?, ha] at h
      exact ih h

theorem find?_map_overwrite_ne (p q : FPath) (d : FileData) (l : List (FPath × FileData))
    (hne : p ≠ q) :
    (l.map (fun e => if e.1 == p then (p, d) else e)).find? (fun e => e.1 == q) =
      l.find? (fun e => e.1 == q) := by
  induction l with
  | nil => simp
  | cons a t ih =>
    rw [List.map_cons]
    cases ha : a.1 == p with
    | true =>
      have hap : a.1 = p := by simpa using ha
      have hq : (a.1 == q) = false := by
        simp only [beq_eq_false_iff_ne, ne_eq, hap]
        exact hne
      simp only [ha, if_true]
      rw [List.find?, List.find?, hq]
      have hpq : (p == q) = false := by simpa using hne
      rw [show ((p, d).1 == q) = false from hpq]
      exact ih
    | false =>
      simp only [ha, Bool.false_eq_true, if_false]
      rw [List.find?, List.find?]
      cases hq : a.1 == q with
      | true => rfl
      | false => exact ih

theorem readFile_writeFile_self (fs : FS) (p : FPath) (d : FileData) :
    (fs.writeFile p d).readFile p = some d := by
  unfold FS.writeFile
  cases hf : fs.isFile p with
  | true =>
    have h : (fs.files.find? (fun e => e.1 == p)).isSome = true := by
      cases hq : fs.files.find? (fun e => e.1 == p) with
      | some x => rfl
      | none =>
        unfold FS.isFile FS.readFile at hf
        rw [hq] at hf
        simp at hf
    simp only [if_true]
    unfold FS.readFile
    rw [find?_map_overwrite p d fs.files h]
    rfl
  | false =>
    have h : fs.files.find? (fun e => e.1 == p) = none := by
      cases hq : fs.files.find? (fun e => e.1 == p) with
      | none => rfl
      | some x =>
        unfold FS.isFile FS.readFile at hf
        rw [hq] at hf
        simp at hf
    simp only [Bool.false_eq_true, if_false]
    unfold FS.readFile
    rw [find?_append_none _ _ _ h]
    simp [List.find?]

theorem readFile_writeFile_ne (fs : FS) (p q : FPath) (d : FileData) (hne : p ≠ q) :
    (fs.writeFile p d).readFile q = fs.readFile q := by
  unfold FS.writeFile
  cases hf : fs.isFile p with
  | true =>
    simp only [if_true]
    unfold FS.readFile
    rw [find?_map_overwrite_ne p q d fs.files hne]
  | false =>
    simp only [Bool.false_eq_true, if_false]
    unfold FS.readFile
    cases hq : fs.files.find? (fun e => e.1 == q) with
    | none =>
      rw [find?_append_none _ _ _ hq]
      have hpq : (p == q) = false := by simpa using hne
      simp [List.find?, hpq]
    | some x => rw [find?_append_some _ _ _ _ hq]

theorem files_mkdirAll (fs : FS) (p : FPath) : (fs.mkdirAll p).files = fs.files := by
  unfold FS.mkdirAll
  split <;> rfl

theorem readFile_mkdirAll (fs : FS) (p q : FPath) :
    (fs.mkdirAll p).readFile q = fs.readFile q := by
  unfold FS.readFile
  rw [files_mkdirAll]

theorem zipEntries_mkdirAll (fs : FS) (p sp : FPath) :
    zipEntries (fs.mkdirAll p) sp = zipEntries fs sp := by
  unfold zipEntries
  rw [files_mkdirAll]

/-! ## Claim C1 -/

/-- Claim C1: the Finalizer never reaches the packaging step unless all prior
gates pass.  If the skill path is missing or not a directory, the stripped
and lowercased confirmation response is neither `yes` nor `y`, or the
Validator reports failure, then the filesystem is unchanged (no archive is
created) and the exit code is 1.  Packaging only happens when the directory
check, the affirmative confirmation and the validation all pass, in that
order. -/
theorem finalize_gates_block_packaging (fs : FS) (skillPath : FPath)
    (response : List Char) (ts : Stamp) (outputDir : Option FPath) (cwd : FPath)
    (h : fs.pathExists skillPath = false ∨ fs.isDir skillPath = false ∨
      isAffirmative response = false ∨ (validateSkill fs skillPath).1 = false) :
    finalizeMain fs skillPath response ts outputDir cwd = (1, fs) := by
  unfold finalizeMain finalizeSkill
  rcases h with h | h | h | h
  · simp [h]
  · by_cases h1 : fs.pathExists skillPath <;> simp [h1, h]
  · by_cases h1 : fs.pathExists skillPath <;> by_cases h2 : fs.isDir skillPath <;>
      simp [h1, h2, h]
  · by_cases h1 : fs.pathExists skillPath <;> by_cases h2 : fs.isDir skillPath <;>
      by_cases h3 : isAffirmative response <;> simp [h1, h2, h3, h]

/-- Witness for C1: a missing skill directory aborts with exit code 1 and an
unchanged filesystem even though the operator answered `yes`. -/
theorem finalize_gates_block_packaging_witness :
    finalizeMain ⟨[], []⟩ ["missing"] "yes".toList ⟨2024, 1, 2, 3, 4, 5⟩ none [] =
      (1, ⟨[], []⟩) :=
  finalize_gates_block_packaging _ _ _ _ _ _ (Or.inl (by decide))

/-! ## Claim C4 -/

/-- Claim C4, counterexample: an invocation whose destination target already
exists but whose source skill is missing fails with the source-not-found
error, not with the collision error, so "fails with a collision error" does
not hold of every destination-collision invocation. -/
theorem fork_collision_counterexample :
    FS.pathExists ⟨[["out", "new"]], []⟩ (["out"] ++ ["new"]) = true ∧
    forkSkill ⟨[["out", "new"]], []⟩ ["src"] "new" ["out"] ⟨2026, 10, 12, 0, 0, 0⟩ =
      (.error .sourceNotFound, ⟨[["out", "new"]], []⟩) := by
  constructor
  · decide
  · decide

/-- Claim C4 (amended): whenever the destination target exists the fork
fails before any copying with the filesystem untouched, and when the source
additionally passes its own checks (exists, is a directory, contains the
metadata file) the failure is the destination-collision error. -/
theorem fork_dest_exists_aborts (fs : FS) (src : FPath) (newName : String)
    (out : FPath) (now : Stamp)
    (hdest : fs.pathExists (out ++ [newName]) = true) :
    (∃ e, (forkSkill fs src newName out now).1 = .error e) ∧
    (forkSkill fs src newName out now).2 = fs ∧
    (fs.pathExists src = true → fs.isDir src = true →
      fs.pathExists (src ++ ["SKILL.md"]) = true →
      (forkSkill fs src newName out now).1 = .error .targetExists) := by
  unfold forkSkill
  by_cases h1 : fs.pathExists src <;> by_cases h2 : fs.isDir src <;>
    by_cases h3 : fs.pathExists (src ++ ["SKILL.md"]) <;>
      simp [h1, h2, h3, hdest]

/-- Witness for C4 (amended): with a valid source and an existing
destination, the fork returns the collision error and the filesystem is
unchanged. -/
theorem fork_dest_exists_aborts_witness :
    (forkSkill ⟨[["src"], ["out", "new"]], [(["src", "SKILL.md"], .text [])]⟩
        ["src"] "new" ["out"] ⟨2026, 10, 12, 0, 0, 0⟩).1 = .error .targetExists ∧
    (forkSkill ⟨[["src"], ["out", "new"]], [(["src", "SKILL.md"], .text [])]⟩
        ["src"] "new" ["out"] ⟨2026, 10, 12, 0, 0, 0⟩).2 =
      ⟨[["src"], ["out", "new"]], [(["src", "SKILL.md"], .text [])]⟩ := by
  refine ⟨?_, ?_⟩
  · exact (fork_dest_exists_aborts _ _ _ _ _ (by decide)).2.2 (by decide) (by decide)
      (by decide)
  · exact (fork_dest_exists_aborts _ _ _ _ _ (by decide)).2.1

/-! ## Claim C9 -/

/-- Claim C9, counterexample: a skill path that exists and is a directory
but lacks `SKILL.md` also makes the Feedback tool exit 1, a non-zero exit
outside the conditions the claim lists. -/
theorem feedback_missing_skillmd_counterexample :
    FS.pathExists ⟨[["s"]], []⟩ ["s"] = true ∧
    FS.isDir ⟨[["s"]], []⟩ ["s"] = true ∧
    trackFeedbackMain ⟨[["s"]], []⟩ (some ["s"]) ⟨[], [], [], [], [], []⟩ [] =
      (1, ⟨[["s"]], []⟩) := by
  refine ⟨by decide, by decide, by decide⟩

/-- Claim C9 (amended): the Feedback tool exits 0 exactly when the argument
is present, the skill path exists and is a directory, the directory contains
a `SKILL.md` entry, and saving the feedback raises no error. -/
theorem feedback_exit_zero_iff (fs : FS) (arg : Option FPath) (fb : Feedback)
    (date : List Char) :
    (trackFeedbackMain fs arg fb date).1 = 0 ↔
      ∃ p, arg = some p ∧ fs.pathExists p = true ∧ fs.isDir p = true ∧
        fs.pathExists (p ++ ["SKILL.md"]) = true ∧
        (saveFeedback fs p fb date).isSome = true := by
  cases arg with
  | none => simp [trackFeedbackMain]
  | some p =>
    unfold trackFeedbackMain
    by_cases h1 : fs.pathExists p <;> by_cases h2 : fs.isDir p <;>
      by_cases h3 : fs.pathExists (p ++ ["SKILL.md"]) <;>
        simp only [h1, h2, h3, Bool.not_true, Bool.not_false, Bool.false_eq_true,
          if_true, if_false] <;>
      try simp [h1, h2, h3]
    cases hs : saveFeedback fs p fb date with
    | none => simp [hs]
    | some r => simp [hs]

/-! ## Claim C2 -/

/-- Claim C2 fails on the code: the `re.sub` replacement template
`f'\\1{new_name}'` is built without escaping.  For the valid new name `12`
the template `\112` is an octal character escape, so the whole matched
`name: pdf` text is replaced by the single character `J` instead of
rewriting the name value (the metadata block is still appended); for the
valid new name `2x` the template holds the group reference `\12`, which does
not exist, so the rewrite raises instead of substituting.  This theorem
evaluates the embedded `update_skill_metadata` at both failing inputs. -/
theorem update_metadata_digit_name_corrupts :
    updateSkillMetadata "---\nname: pdf\ndescription: d\n---\nbody\n".toList
      "12".toList "pdf".toList "2026-10-12".toList =
      .ok ("---\nJ\ndescription: d\nmetadata:\n  customized-from: pdf\n  customization-date: 2026-10-12\n---\nbody\n".toList) ∧
    updateSkillMetadata "---\nname: pdf\ndescription: d\n---\nbody\n".toList
      "2x".toList "pdf".toList "2026-10-12".toList = .error () := by
  constructor
  · decide
  · decide

/-! ## Claim C7 -/

/-- Claim C7, counterexample: the name-extraction regex `name:\s*(.+)` lets
`\s*` cross the line break, so in a metadata file whose `name:` declaration
has an empty value and is followed by a `description:` line, the next line's
text is extracted as the name and fails the pattern check — the file does
not validate successfully. -/
theorem validator_empty_name_counterexample :
    validateSkill
      ⟨[["s"]], [(["s", "SKILL.md"], .text "---\nname:\ndescription: test\n---\n".toList)]⟩
      ["s"] = (false, .nameNotHyphenCase "description: test".toList) := by
  decide

/-- Claim C7 (amended): the required-key check is presence-only, and the
name-pattern check runs only when the search `name:\s*(.+)` captures a
value.  Whenever a well-formed header contains the `name:` and
`description:` substrings and the search captures nothing (an empty `name:`
followed by no later non-newline text), validation succeeds. -/
theorem validator_presence_only_no_capture (content fm : List Char)
    (h1 : ('-' :: '-' :: '-' :: []).isPrefixOf content = true)
    (h2 : extractFrontmatter content = some fm)
    (h3 : containsStr fm ('n' :: 'a' :: 'm' :: 'e' :: ':' :: []) = true)
    (h4 : containsStr fm
      ('d' :: 'e' :: 's' :: 'c' :: 'r' :: 'i' :: 'p' :: 't' :: 'i' :: 'o' :: 'n' :: ':' :: []) = true)
    (h5 : searchNameValue fm = none) :
    validateContent content = (true, .valid) := by
  unfold validateContent
  simp [h1, h2, h3, h4, h5]

/-- Witness for C7 (amended): a header whose empty `name:` is its last line
validates successfully. -/
theorem validator_presence_only_no_capture_witness :
    validateContent "---\ndescription: test\nname:\n---\n".toList = (true, .valid) :=
  validator_presence_only_no_capture _ "description: test\nname:".toList
    (by decide) (by decide) (by decide) (by decide) (by decide)

/-! ## Claim C5 -/

/-- Claim C5: `save_feedback` creates a missing log from the fixed header
template with the new entry numbered 1; on an existing log the new entry's
number is one plus the count of entry-header occurrences in the current
content; in both cases the rendered entry is appended at the end, the prior
content surviving byte-for-byte as a prefix of the new content. -/
theorem save_feedback_appends (fs : FS) (skillDir : FPath) (fb : Feedback)
    (date : List Char) :
    (fs.pathExists (skillDir ++ ["FEEDBACK.md"]) = false →
      ∃ fs', saveFeedback fs skillDir fb date = some (skillDir ++ ["FEEDBACK.md"], fs') ∧
        fs'.readFile (skillDir ++ ["FEEDBACK.md"]) =
          some (.text (feedbackTemplate ++ renderEntry 1 date fb))) ∧
    (∀ d, fs.pathExists (skillDir ++ ["FEEDBACK.md"]) = true →
      fs.readFile (skillDir ++ ["FEEDBACK.md"]) = some d →
      ∃ fs', saveFeedback fs skillDir fb date = some (skillDir ++ ["FEEDBACK.md"], fs') ∧
        fs'.readFile (skillDir ++ ["FEEDBACK.md"]) =
          some (.text (d.rawBytes ++
            renderEntry (pyCount d.rawBytes entryHeaderPat + 1) date fb))) := by
  constructor
  · intro h
    refine ⟨(fs.writeFile (skillDir ++ ["FEEDBACK.md"]) (.text feedbackTemplate)).appendText
        (skillDir ++ ["FEEDBACK.md"]) (renderEntry 1 date fb), ?_, ?_⟩
    · unfold saveFeedback
      simp only [h, Bool.false_eq_true, if_false]
    · unfold FS.appendText
      rw [readFile_writeFile_self]
      simp only [FileData.rawBytes]
      rw [readFile_writeFile_self]
  · intro d h hd
    refine ⟨fs.appendText (skillDir ++ ["FEEDBACK.md"])
        (renderEntry (pyCount d.rawBytes entryHeaderPat + 1) date fb), ?_, ?_⟩
    · unfold saveFeedback
      simp only [h, if_true, hd]
    · unfold FS.appendText
      rw [hd]
      rw [readFile_writeFile_self]

/-- Witness for C5: saving feedback into a skill directory with no existing
log yields the template followed by entry number 1. -/
theorem save_feedback_appends_witness :
    ∃ fs', saveFeedback ⟨[["s"]], []⟩ ["s"] ⟨[], [], [], [], [], []⟩ [] =
        some (["s"] ++ ["FEEDBACK.md"], fs') ∧
      fs'.readFile (["s"] ++ ["FEEDBACK.md"]) =
        some (.text (feedbackTemplate ++ renderEntry 1 [] ⟨[], [], [], [], [], []⟩)) :=
  (save_feedback_appends _ _ _ _).1 (by decide)

/-! ## Claims C3 and C8 -/

theorem isPrefixOf_iff_exists (l q : List String) :
    l.isPrefixOf q = true ↔ ∃ t, q = l ++ t := by
  induction l generalizing q with
  | nil => simp [List.isPrefixOf]
  | cons a l ih =>
    cases q with
    | nil => simp [List.isPrefixOf]
    | cons b q =>
      simp only [List.isPrefixOf, Bool.and_eq_true, beq_iff_eq]
      constructor
      · rintro ⟨h1, hp⟩
        obtain ⟨t, rfl⟩ := (ih q).mp hp
        exact ⟨t, by rw [List.cons_append, h1]⟩
      · rintro ⟨t, ht⟩
        rw [List.cons_append] at ht
        injection ht with hb hq
        exact ⟨hb.symm, (ih q).mpr ⟨t, hq⟩⟩

theorem zipEntries_mem_iff (fs : FS) (sp arc : FPath) (bytes : List Char) :
    (arc, bytes) ∈ zipEntries fs sp ↔
      ∃ rel d, (sp ++ rel, d) ∈ fs.files ∧ rel ≠ [] ∧
        arc = pathName sp :: rel ∧ bytes = d.rawBytes := by
  unfold zipEntries
  rw [List.mem_map]
  constructor
  · rintro ⟨⟨p, d⟩, he, heq⟩
    rw [List.mem_filter] at he
    obtain ⟨hmem, hpred⟩ := he
    simp only [Bool.and_eq_true, decide_eq_true_eq] at hpred
    obtain ⟨t, rfl⟩ := (isPrefixOf_iff_exists sp p).mp hpred.1
    have hlen := hpred.2
    simp only [Prod.mk.injEq] at heq
    refine ⟨t, d, hmem, ?_, ?_, ?_⟩
    · intro h
      rw [h, List.append_nil] at hlen
      exact lt_irrefl _ hlen
    · rw [← heq.1]
      rw [List.drop_left]
    · exact heq.2.symm
  · rintro ⟨rel, d, hmem, hrel, harc, hbytes⟩
    refine ⟨(sp ++ rel, d), ?_, ?_⟩
    · rw [List.mem_filter]
      refine ⟨hmem, ?_⟩
      simp only [Bool.and_eq_true, decide_eq_true_eq]
      refine ⟨(isPrefixOf_iff_exists sp (sp ++ rel)).mpr ⟨rel, rfl⟩, ?_⟩
      have := List.length_pos.mpr hrel
      rw [List.length_append]
      omega
    · simp only
      rw [List.drop_left, harc, hbytes]

/-- Claim C3: packaging a skill directory named `N` at instant `T` writes
the archive `N-<T as YYYYMMDD-HHMMSS>.zip` into the resolved output
directory; the archive holds exactly the regular files found below the
skill directory (no directory entries), each stored under its path relative
to the skill directory's parent, so every entry starts with the top-level
`N` component. -/
theorem package_archive_name_and_entries (fs : FS) (skillPath : FPath) (ts : Stamp)
    (outputDir : Option FPath) (cwd : FPath) :
    (packageSkillWithTimestamp fs skillPath ts outputDir cwd).1 =
      (match outputDir with | some d => d | none => cwd) ++
        [pathName skillPath ++ "-" ++ String.mk (fmtStamp ts) ++ ".zip"] ∧
    (packageSkillWithTimestamp fs skillPath ts outputDir cwd).2.readFile
        (packageSkillWithTimestamp fs skillPath ts outputDir cwd).1 =
      some (.zip (zipEntries fs skillPath)) ∧
    (∀ arc bytes, (arc, bytes) ∈ zipEntries fs skillPath ↔
      ∃ rel d, (skillPath ++ rel, d) ∈ fs.files ∧ rel ≠ [] ∧
        arc = pathName skillPath :: rel ∧ bytes = d.rawBytes) ∧
    (∀ arc bytes, (arc, bytes) ∈ zipEntries fs skillPath →
      arc.head? = some (pathName skillPath)) := by
  refine ⟨?_, ?_, ?_, ?_⟩
  · cases outputDir <;> rfl
  · cases outputDir with
    | none =>
      unfold packageSkillWithTimestamp
      simp only
      rw [readFile_writeFile_self]
    | some dd =>
      unfold packageSkillWithTimestamp
      simp only
      rw [readFile_writeFile_self, zipEntries_mkdirAll]
  · intro arc bytes
    exact zipEntries_mem_iff fs skillPath arc bytes
  · intro arc bytes hm
    obtain ⟨rel, d, _, _, harc, _⟩ := (zipEntries_mem_iff fs skillPath arc bytes).mp hm
    rw [harc]
    rfl

theorem data_mk (l : List Char) : (String.mk l).data = l := rfl

theorem zipName_inj (n : String) (s1 s2 : List Char)
    (h : n ++ "-" ++ String.mk s1 ++ ".zip" = n ++ "-" ++ String.mk s2 ++ ".zip") :
    s1 = s2 := by
  have hd := congrArg String.data h
  simp only [String.data_append, data_mk] at hd
  exact List.append_cancel_left (List.append_cancel_right hd)

/-- Claim C8, counterexample: two successful packaging runs of the same
skill within the same second produce the same archive path, so the second
run overwrites the first instead of producing two distinct archives — after
both runs the filesystem holds a single archive file. -/
theorem same_second_rerun_overwrites :
    (packageSkillWithTimestamp ⟨[["foo"]], [(["foo", "a.txt"], .text ('h' :: 'i' :: []))]⟩
        ["foo"] ⟨2024, 1, 2, 3, 4, 5⟩ (some ["out"]) []).1 =
      (packageSkillWithTimestamp
        (packageSkillWithTimestamp ⟨[["foo"]], [(["foo", "a.txt"], .text ('h' :: 'i' :: []))]⟩
          ["foo"] ⟨2024, 1, 2, 3, 4, 5⟩ (some ["out"]) []).2
        ["foo"] ⟨2024, 1, 2, 3, 4, 5⟩ (some ["out"]) []).1 ∧
    (packageSkillWithTimestamp
        (packageSkillWithTimestamp ⟨[["foo"]], [(["foo", "a.txt"], .text ('h' :: 'i' :: []))]⟩
          ["foo"] ⟨2024, 1, 2, 3, 4, 5⟩ (some ["out"]) []).2
        ["foo"] ⟨2024, 1, 2, 3, 4, 5⟩ (some ["out"]) []).2.files.length = 2 := by
  constructor
  · decide
  · decide

/-- Claim C8 (amended): for two packaging runs of the same skill whose
formatted timestamps differ, the two archive paths are distinct, differing
only in the timestamp part of the file name, and the second run leaves the
first run's archive in place unchanged. -/
theorem distinct_stamp_rerun_preserves (fs : FS) (skillPath : FPath) (ts1 ts2 : Stamp)
    (outputDir : Option FPath) (cwd : FPath)
    (hts : fmtStamp ts1 ≠ fmtStamp ts2) :
    (packageSkillWithTimestamp fs skillPath ts1 outputDir cwd).1 =
      (match outputDir with | some d => d | none => cwd) ++
        [pathName skillPath ++ "-" ++ String.mk (fmtStamp ts1) ++ ".zip"] ∧
    (packageSkillWithTimestamp (packageSkillWithTimestamp fs skillPath ts1 outputDir cwd).2
        skillPath ts2 outputDir cwd).1 =
      (match outputDir with | some d => d | none => cwd) ++
        [pathName skillPath ++ "-" ++ String.mk (fmtStamp ts2) ++ ".zip"] ∧
    (packageSkillWithTimestamp fs skillPath ts1 outputDir cwd).1 ≠
      (packageSkillWithTimestamp (packageSkillWithTimestamp fs skillPath ts1 outputDir cwd).2
        skillPath ts2 outputDir cwd).1 ∧
    (packageSkillWithTimestamp (packageSkillWithTimestamp fs skillPath ts1 outputDir cwd).2
        skillPath ts2 outputDir cwd).2.readFile
      (packageSkillWithTimestamp fs skillPath ts1 outputDir cwd).1 =
      some (.zip (zipEntries fs skillPath)) := by
  have hne : ∀ out' : FPath,
      out' ++ [pathName skillPath ++ "-" ++ String.mk (fmtStamp ts1) ++ ".zip"] ≠
        out' ++ [pathName skillPath ++ "-" ++ String.mk (fmtStamp ts2) ++ ".zip"] := by
    intro out' h
    have h2 := List.append_cancel_left h
    injection h2 with h3 _
    exact hts (zipName_inj _ _ _ h3)
  cases outputDir with
  | none =>
    refine ⟨rfl, rfl, hne cwd, ?_⟩
    unfold packageSkillWithTimestamp
    simp only
    rw [readFile_writeFile_ne _ _ _ _ (hne cwd).symm, readFile_writeFile_self]
  | some dd =>
    refine ⟨rfl, rfl, hne dd, ?_⟩
    unfold packageSkillWithTimestamp
    simp only
    rw [readFile_writeFile_ne _ _ _ _ (hne dd).symm, readFile_mkdirAll,
      readFile_writeFile_self, zipEntries_mkdirAll]

/-- Witness for C8 (amended): packaging `foo` at two consecutive seconds
produces two differently named archives and the first survives the second
run. -/
theorem distinct_stamp_rerun_preserves_witness :
    (packageSkillWithTimestamp ⟨[["foo"]], [(["foo", "a.txt"], .text ('h' :: 'i' :: []))]⟩
        ["foo"] ⟨2024, 1, 2, 3, 4, 5⟩ (some ["out"]) []).1 ≠
      (packageSkillWithTimestamp
        (packageSkillWithTimestamp ⟨[["foo"]], [(["foo", "a.txt"], .text ('h' :: 'i' :: []))]⟩
          ["foo"] ⟨2024, 1, 2, 3, 4, 5⟩ (some ["out"]) []).2
        ["foo"] ⟨2024, 1, 2, 3, 4, 6⟩ (some ["out"]) []).1 ∧
    (packageSkillWithTimestamp
        (packageSkillWithTimestamp ⟨[["foo"]], [(["foo", "a.txt"], .text ('h' :: 'i' :: []))]⟩
          ["foo"] ⟨2024, 1, 2, 3, 4, 5⟩ (some ["out"]) []).2
        ["foo"] ⟨2024, 1, 2, 3, 4, 6⟩ (some ["out"]) []).2.readFile
      (packageSkillWithTimestamp ⟨[["foo"]], [(["foo", "a.txt"], .text ('h' :: 'i' :: []))]⟩
        ["foo"] ⟨2024, 1, 2, 3, 4, 5⟩ (some ["out"]) []).1 =
      some (.zip (zipEntries ⟨[["foo"]], [(["foo", "a.txt"], .text ('h' :: 'i' :: []))]⟩
        ["foo"])) :=
  ⟨(distinct_stamp_rerun_preserves _ _ _ _ _ _ (by decide)).2.2.1,
   (distinct_stamp_rerun_preserves _ _ _ _ _ _ (by decide)).2.2.2⟩

/-! ## Claim C6 -/

theorem isClassChar_ne_nl {c : Char} (h : isClassChar c = true) : (c != '\n') = true := by
  by_contra hb
  have hc : c = '\n' := by simpa using hb
  subst hc
  exact absurd h (by decide)

theorem isClassChar_not_space {c : Char} (h : isClassChar c = true) :
    pyIsSpace c = false := by
  by_contra hb
  have hs : pyIsSpace c = true := by simpa using hb
  simp only [pyIsSpace, Bool.or_eq_true, beq_iff_eq] at hs
  simp only [isClassChar, Bool.or_eq_true, Bool.and_eq_true, decide_eq_true_eq,
    beq_iff_eq] at h
  omega

theorem takeWhile_nl (xs rest : List Char) (h : ∀ c ∈ xs, (c != '\n') = true) :
    (xs ++ '\n' :: rest).takeWhile (· != '\n') = xs := by
  induction xs with
  | nil => simp
  | cons c t ih =>
    rw [List.cons_append, List.takeWhile_cons]
    rw [h c (by simp)]
    simp only [if_true]
    rw [ih (fun a ha => h a (by simp [ha]))]

theorem dropWhile_nl (xs rest : List Char) (h : ∀ c ∈ xs, (c != '\n') = true) :
    (xs ++ '\n' :: rest).dropWhile (· != '\n') = '\n' :: rest := by
  induction xs with
  | nil => simp
  | cons c t ih =>
    rw [List.cons_append, List.dropWhile_cons]
    rw [h c (by simp)]
    simp only [if_true]
    exact ih (fun a ha => h a (by simp [ha]))

theorem containsStr_cons (c : Char) (t pat : List Char)
    (h : containsStr t pat = true) : containsStr (c :: t) pat = true := by
  rw [containsStr]
  split
  · rfl
  · exact h

theorem containsStr_append (xs ys pat : List Char)
    (h : containsStr ys pat = true) : containsStr (xs ++ ys) pat = true := by
  induction xs with
  | nil => simpa using h
  | cons c t ih => exact containsStr_cons c (t ++ ys) pat ih

theorem findBeforeMarker_skip (ms xs ys : List Char)
    (h : ∀ c ∈ xs, (c != '\n') = true) :
    findBeforeMarker ('\n' :: ms) (xs ++ ys) =
      (findBeforeMarker ('\n' :: ms) ys).map (xs ++ ·) := by
  induction xs with
  | nil =>
    simp only [List.nil_append]
    cases findBeforeMarker ('\n' :: ms) ys <;> simp
  | cons c t ih =>
    rw [List.cons_append, findBeforeMarker]
    have hcn : ¬ c = '\n' := by
      have := h c (by simp)
      simpa [bne_iff_ne] using this
    have hpre : (('\n' :: ms).isPrefixOf (c :: (t ++ ys))) = false := by
      have h2 : ('\n' == c) = false := by
        simp only [beq_eq_false_iff_ne, ne_eq]
        exact fun e => hcn e.symm
      simp [List.isPrefixOf, h2]
    rw [hpre]
    simp only [Bool.false_eq_true, if_false]
    rw [ih (fun a ha => h a (by simp [ha]))]
    cases findBeforeMarker ('\n' :: ms) ys <;> simp

theorem wsThenLine_class (c : Char) (t rest : List Char)
    (hc : isClassChar c = true) (ht : ∀ a ∈ t, isClassChar a = true) :
    wsThenLine ((c :: t) ++ '\n' :: rest) = some ([], c :: t, '\n' :: rest) := by
  rw [List.cons_append, wsThenLine]
  rw [isClassChar_not_space hc]
  simp only [Bool.false_eq_true, if_false]
  have htake : (c :: (t ++ '\n' :: rest)).takeWhile (· != '\n') = c :: t := by
    rw [List.takeWhile_cons, isClassChar_ne_nl hc]
    simp only [if_true]
    rw [takeWhile_nl t rest (fun a ha => isClassChar_ne_nl (ht a ha))]
  have hdrop : (c :: (t ++ '\n' :: rest)).dropWhile (· != '\n') = '\n' :: rest := by
    rw [List.dropWhile_cons, isClassChar_ne_nl hc]
    simp only [if_true]
    exact dropWhile_nl t rest (fun a ha => isClassChar_ne_nl (ht a ha))
  rw [htake, hdrop]

theorem searchNameValue_mk (name D : List Char) (hn : name ≠ [])
    (hcls : ∀ a ∈ name, isClassChar a = true) :
    searchNameValue ("name: ".toList ++ (name ++ '\n' :: D)) = some name := by
  obtain ⟨c, t, rfl⟩ := List.exists_cons_of_ne_nil hn
  have hws : wsThenLine (' ' :: ((c :: t) ++ '\n' :: D)) =
      some ([' '], c :: t, '\n' :: D) := by
    rw [wsThenLine]
    rw [show pyIsSpace ' ' = true from rfl]
    simp only [if_true]
    rw [wsThenLine_class c t D (hcls c (by simp)) (fun a ha => hcls a (by simp [ha]))]
  rw [show ("name: ".toList ++ ((c :: t) ++ '\n' :: D)) =
    'n' :: 'a' :: 'm' :: 'e' :: ':' :: ' ' :: ((c :: t) ++ '\n' :: D) from rfl]
  rw [searchNameValue]
  rw [show (('n' :: 'a' :: 'm' :: 'e' :: ':' :: []).isPrefixOf
    ('n' :: 'a' :: 'm' :: 'e' :: ':' :: ' ' :: ((c :: t) ++ '\n' :: D))) = true from rfl]
  simp only [if_true]
  rw [show (('n' :: 'a' :: 'm' :: 'e' :: ':' :: ' ' :: ((c :: t) ++ '\n' :: D)).drop 5) =
    ' ' :: ((c :: t) ++ '\n' :: D) from rfl]
  rw [hws]

theorem pyStrip_class (name : List Char) (h : ∀ a ∈ name, isClassChar a = true) :
    pyStrip name = name := by
  have h1 : ∀ (l : List Char), (∀ a ∈ l, pyIsSpace a = false) → l.dropWhile pyIsSpace = l := by
    intro l hl
    cases l with
    | nil => rfl
    | cons a t =>
      rw [List.dropWhile_cons, hl a (by simp)]
      simp
  unfold pyStrip
  rw [h1 _ (fun a ha => isClassChar_not_space (h a ha))]
  rw [h1 _ (fun a ha => isClassChar_not_space (h a (List.mem_reverse.mp ha)))]
  exact List.reverse_reverse name

theorem pyNamePat_class (name : List Char) (hn : name ≠ [])
    (h : ∀ a ∈ name, isClassChar a = true) : pyNamePat name = true := by
  unfold pyNamePat
  have hlast : (name.getLast? == some '\n') = false := by
    cases hg : name.getLast? with
    | none => rfl
    | some a =>
      have ha : a ∈ name := by
        obtain ⟨hne, heq⟩ := List.mem_getLast?_eq_getLast (Option.mem_def.mpr hg)
        rw [heq]
        exact List.getLast_mem hne
      have hne := isClassChar_ne_nl (h a ha)
      simp only [bne_iff_ne, ne_eq] at hne
      simp [hne]
  rw [hlast]
  simp only [Bool.false_eq_true, if_false]
  cases name with
  | nil => exact absurd rfl hn
  | cons c t =>
    simp only [List.isEmpty_cons, Bool.not_false, Bool.true_and]
    rw [List.all_eq_true]
    intro a ha
    exact h a ha

/-- A minimal metadata file whose header declares the given name and a
`description`. -/
def mkSkillContent (name : List Char) : List Char :=
  "---\nname: ".toList ++ (name ++ ('\n' :: "description: test\n---\n".toList))

/-- A one-skill filesystem around `mkSkillContent`. -/
def mkSkillFs (name : List Char) : FS :=
  ⟨[["s"]], [(["s", "SKILL.md"], .text (mkSkillContent name))]⟩

theorem extractFrontmatter_mk (name : List Char)
    (h : ∀ a ∈ name, (a != '\n') = true) :
    extractFrontmatter (mkSkillContent name) =
      some ("name: ".toList ++ (name ++ '\n' :: "description: test".toList)) := by
  have hxs : ∀ c ∈ "name: ".toList ++ name, (c != '\n') = true := by
    intro c hc
    rw [List.mem_append] at hc
    rcases hc with hc | hc
    · exact (by decide : ∀ c ∈ "name: ".toList, (c != '\n') = true) c hc
    · exact h c hc
  rw [show extractFrontmatter (mkSkillContent name) =
    findBeforeMarker ('\n' :: '-' :: '-' :: '-' :: [])
      (("name: ".toList ++ name) ++ ('\n' :: "description: test\n---\n".toList)) from rfl]
  rw [findBeforeMarker_skip ('-' :: '-' :: '-' :: []) ("name: ".toList ++ name)
    ('\n' :: "description: test\n---\n".toList) hxs]
  rw [show findBeforeMarker ('\n' :: '-' :: '-' :: '-' :: [])
    ('\n' :: "description: test\n---\n".toList) =
      some ('\n' :: "description: test".toList) from by decide]
  simp [List.append_assoc]

/-- Claim C6: every name made of `[a-z0-9-]` characters that nevertheless
contains `--` or starts or ends with `-` is rejected both by the Validator's
name check (a metadata file declaring it fails validation with the
hyphen-placement message) and by the Forker's new-name check, the latter
exiting with code 1 before any filesystem mutation. -/
theorem hyphen_names_rejected (name : List Char) (hn : name ≠ [])
    (hcls : ∀ a ∈ name, isClassChar a = true) (hbad : badHyphens name = true) :
    validateSkill (mkSkillFs name) ["s"] = (false, .nameBadHyphens name) ∧
    ∀ (fs : FS) (src out : FPath) (now : Stamp),
      forkMain fs src (String.mk name) out now = (1, fs) := by
  have hnl : ∀ a ∈ name, (a != '\n') = true := fun a ha => isClassChar_ne_nl (hcls a ha)
  constructor
  · unfold validateSkill
    rw [show (mkSkillFs name).pathExists ["s"] = true from rfl]
    rw [show (mkSkillFs name).isDir ["s"] = true from rfl]
    simp only [Bool.not_true, Bool.false_eq_true, if_false]
    rw [show (mkSkillFs name).readFile (["s"] ++ ["SKILL.md"]) =
      some (.text (mkSkillContent name)) from rfl]
    show validateContent (mkSkillContent name) = (false, .nameBadHyphens name)
    unfold validateContent
    rw [show (('-' :: '-' :: '-' :: []).isPrefixOf (mkSkillContent name)) = true from rfl]
    rw [extractFrontmatter_mk name hnl]
    simp only [Bool.not_true, Bool.false_eq_true, if_false]
    rw [show containsStr ("name: ".toList ++ (name ++ '\n' :: "description: test".toList))
      ('n' :: 'a' :: 'm' :: 'e' :: ':' :: []) = true from rfl]
    rw [show containsStr ("name: ".toList ++ (name ++ '\n' :: "description: test".toList))
      "description:".toList = true from by
        rw [← List.append_assoc]
        exact containsStr_append _ _ _ (by decide)]
    rw [searchNameValue_mk name "description: test".toList hn hcls]
    simp only [pyStrip_class name hcls, pyNamePat_class name hn hcls, hbad,
      Bool.not_true, Bool.false_eq_true, if_false, if_true]
  · intro fs src out now
    unfold forkMain
    rw [show (String.mk name).data = name from rfl]
    rw [pyNamePat_class name hn hcls]
    simp only [Bool.not_true, Bool.false_eq_true, if_false]
    rw [hbad]
    simp only [if_true]

/-- Witness for C6: the name `a--b` matches the character class but is
rejected by the Validator and by the Forker's name check. -/
theorem hyphen_names_rejected_witness :
    validateSkill (mkSkillFs ('a' :: '-' :: '-' :: 'b' :: [])) ["s"] =
      (false, .nameBadHyphens ('a' :: '-' :: '-' :: 'b' :: [])) ∧
    forkMain ⟨[], []⟩ ["src"] (String.mk ('a' :: '-' :: '-' :: 'b' :: [])) ["out"]
      ⟨2026, 10, 12, 0, 0, 0⟩ = (1, ⟨[], []⟩) :=
  ⟨(hyphen_names_rejected ('a' :: '-' :: '-' :: 'b' :: []) (by decide) (by decide)
      (by decide)).1,
   (hyphen_names_rejected ('a' :: '-' :: '-' :: 'b' :: []) (by decide) (by decide)
      (by decide)).2 ⟨[], []⟩ ["src"] ["out"] ⟨2026, 10, 12, 0, 0, 0⟩⟩

/-! ## Claim C10 -/

/-- Claim C10: when the recursive copy succeeds but the metadata rewrite
raises (for any source whose checks pass, fresh destination, and readable
copied metadata file whose rewrite errors), the fork returns the update
error — no path — while the filesystem keeps the fully copied destination
tree, with every copied file (the metadata file included) still present
unmodified; and the command exits 1. -/
theorem fork_update_error_keeps_copy (fs : FS) (src : FPath) (newName : String)
    (out : FPath) (now : Stamp) (d : FileData)
    (h1 : fs.pathExists src = true) (h2 : fs.isDir src = true)
    (h3 : fs.pathExists (src ++ ["SKILL.md"]) = true)
    (h4 : fs.pathExists (out ++ [newName]) = false)
    (h5 : (fs.copyTree src (out ++ [newName])).readFile
      ((out ++ [newName]) ++ ["SKILL.md"]) = some d)
    (h6 : updateSkillMetadata d.rawBytes newName.data (pathName src).data
      (fmtDate now) = .error ()) :
    forkSkill fs src newName out now =
      (.error .updateError, fs.copyTree src (out ++ [newName])) ∧
    (∀ q dd, (q, dd) ∈ fs.files → src.isPrefixOf q = true → src.length < q.length →
      ((out ++ [newName]) ++ q.drop src.length, dd) ∈
        (fs.copyTree src (out ++ [newName])).files) ∧
    (pyNamePat newName.data = true → badHyphens newName.data = false →
      forkMain fs src newName out now =
        (1, fs.copyTree src (out ++ [newName]))) := by
  have hfork : forkSkill fs src newName out now =
      (.error .updateError, fs.copyTree src (out ++ [newName])) := by
    unfold forkSkill
    simp only [h1, h2, h3, h4, Bool.not_true, Bool.false_eq_true, if_false, if_true,
      h5, h6]
  refine ⟨hfork, ?_, ?_⟩
  · intro q dd hmem hpre hlen
    unfold FS.copyTree
    simp only
    rw [List.mem_append]
    right
    rw [List.mem_map]
    refine ⟨(q, dd), List.mem_filter.mpr ⟨hmem, ?_⟩, rfl⟩
    simp only [Bool.and_eq_true, decide_eq_true_eq]
    exact ⟨hpre, hlen⟩
  · intro hpn hbh
    unfold forkMain
    simp only [hpn, hbh, Bool.not_true, Bool.false_eq_true, if_false, hfork]

/-- Witness for C10: forking `pdf` to the format-valid name `2x` copies the
tree, then the metadata rewrite raises the invalid-group-reference error and
the copied directory is left in place. -/
theorem fork_update_error_keeps_copy_witness :
    forkSkill ⟨[["pdf"]],
        [(["pdf", "SKILL.md"], .text "---\nname: pdf\ndescription: d\n---\n".toList)]⟩
      ["pdf"] "2x" ["custom"] ⟨2026, 10, 12, 0, 0, 0⟩ =
      (.error .updateError,
        FS.copyTree ⟨[["pdf"]],
            [(["pdf", "SKILL.md"], .text "---\nname: pdf\ndescription: d\n---\n".toList)]⟩
          ["pdf"] (["custom"] ++ ["2x"])) :=
  (fork_update_error_keeps_copy _ _ _ _ _
    (.text "---\nname: pdf\ndescription: d\n---\n".toList)
    (by decide) (by decide) (by decide) (by decide) (by decide) (by decide)).1

end Skills
